import Mathlib

/-!
Verification development for the LiDAR_2_LEGO pipeline.

Each Python function relevant to the checked properties is shallowly
embedded as an executable Lean definition; machine integers are modelled
as `Int`/`Nat` (no overflow concerns arise in the modelled code paths),
floating point quantities that only undergo exact arithmetic are
modelled as `Rat`, and fallible code returns `Option`/`Except`.
-/

namespace LidarLego

/-! ### merge.py : bricks, catalog, neighborhood and merging -/

/-- `VALID_SIZES` from merge.py: the simplified catalog of standard
brick footprints `(length, width)`, including the swapped variants. -/
def VALID_SIZES : List (Int × Int) :=
  [(1, 1), (1, 2), (1, 4),
   (2, 2), (2, 4),
   (2, 1), (4, 1),
   (4, 2)]

/-- The `Brick` class of merge.py: layer, lower-left corner `(x, y)`,
footprint `length × width`, LDraw color and orientation string. -/
structure Brick where
  layer : Int
  x : Int
  y : Int
  length : Int
  width : Int
  color : Int
  orientation : String
deriving DecidableEq, Repr

/-- `Brick.bbox`: bounding box `(x1, y1, x2, y2)` with exclusive upper bounds. -/
def Brick.bbox (b : Brick) : Int × Int × Int × Int :=
  (b.x, b.y, b.x + b.length, b.y + b.width)

/-- `is_valid_lego_part`: membership of the footprint in `VALID_SIZES`. -/
def is_valid_lego_part (length width : Int) : Bool :=
  decide ((length, width) ∈ VALID_SIZES)

/-- `are_neighbors`: same layer and the two bounding boxes touch exactly on
a vertical or horizontal boundary with overlap in the other axis. -/
def are_neighbors (b1 b2 : Brick) : Bool :=
  if b1.layer ≠ b2.layer then false
  else
    let x1a := b1.x; let y1a := b1.y
    let x2a := b1.x + b1.length; let y2a := b1.y + b1.width
    let x1b := b2.x; let y1b := b2.y
    let x2b := b2.x + b2.length; let y2b := b2.y + b2.width
    decide (((x2a = x1b ∨ x2b = x1a) ∧ ¬(y2a ≤ y1b ∨ y2b ≤ y1a)) ∨
            ((y2a = y1b ∨ y2b = y1a) ∧ ¬(x2a ≤ x1b ∨ x2b ≤ x1a)))

/-- `can_merge`: end-to-end merge admissibility. -/
def can_merge (b1 b2 : Brick) : Bool :=
  if b1.layer ≠ b2.layer ∨ b1.color ≠ b2.color ∨ b1.orientation ≠ b2.orientation then
    false
  else if ¬ (are_neighbors b1 b2 = true) then
    false
  else if b1.orientation = "H" then
    decide (b1.y = b2.y ∧ b1.width = b2.width)
  else if b1.orientation = "V" then
    decide (b1.x = b2.x ∧ b1.length = b2.length)
  else
    false

/-- `merge_bricks`: longitudinal merge; builds the elongated brick when
`can_merge` holds and the combined footprint is catalog-valid. -/
def merge_bricks (b1 b2 : Brick) : Option Brick :=
  if ¬ (can_merge b1 b2 = true) then none
  else if b1.orientation = "H" then
    if is_valid_lego_part (b1.length + b2.length) b1.width then
      some ⟨b1.layer, min b1.x b2.x, b1.y, b1.length + b2.length, b1.width, b1.color, "H"⟩
    else none
  else if b1.orientation = "V" then
    if is_valid_lego_part b1.length (b1.width + b2.width) then
      some ⟨b1.layer, b1.x, min b1.y b2.y, b1.length, b1.width + b2.width, b1.color, "V"⟩
    else none
  else none

/-- `can_merge_side`: side-by-side merge admissibility. -/
def can_merge_side (b1 b2 : Brick) : Bool :=
  if b1.layer ≠ b2.layer ∨ b1.color ≠ b2.color ∨ b1.orientation ≠ b2.orientation then
    false
  else if ¬ (are_neighbors b1 b2 = true) then
    false
  else if b1.orientation = "H" then
    decide (b1.x = b2.x ∧ b1.length = b2.length)
  else if b1.orientation = "V" then
    decide (b1.y = b2.y ∧ b1.width = b2.width)
  else
    false

/-- `merge_bricks_side`: lateral merge (widening). -/
def merge_bricks_side (b1 b2 : Brick) : Option Brick :=
  if ¬ (can_merge_side b1 b2 = true) then none
  else if b1.orientation = "H" then
    if is_valid_lego_part b1.length (b1.width + b2.width) then
      some ⟨b1.layer, b1.x, min b1.y b2.y, b1.length, b1.width + b2.width, b1.color, "H"⟩
    else none
  else if b1.orientation = "V" then
    if is_valid_lego_part (b1.length + b2.length) b1.width then
      some ⟨b1.layer, min b1.x b2.x, b1.y, b1.length + b2.length, b1.width, b1.color, "V"⟩
    else none
  else none

/-! ### solver.py : get_best_partition -/

/-- The list of catalog lengths compatible with `width_ref` in their raw
collection order: for each `(l, w)` in `VALID_SIZES`, `l` is collected when
`w = width_ref` and `w` is collected when `l = width_ref`. -/
def validLengthsRaw (width_ref : Int) : List Int :=
  VALID_SIZES.foldl
    (fun acc lw =>
      (acc ++ (if lw.2 = width_ref then [lw.1] else [])
           ++ (if lw.1 = width_ref then [lw.2] else []))) []

/-- Insert a value into a strictly descending list, dropping duplicates
(the effect of Python `sorted(list(set(xs)), reverse=True)` built
one element at a time). -/
def insertDesc (v : Int) : List Int → List Int
  | [] => [v]
  | y :: ys =>
    if v > y then v :: y :: ys
    else if v = y then y :: ys
    else y :: insertDesc v ys

/-- `sorted(list(set(xs)), reverse=True)`: distinct values in descending order. -/
def sortedDescDedup (xs : List Int) : List Int :=
  xs.foldl (fun acc v => insertDesc v acc) []

/-- The deduplicated, descending-sorted valid lengths used by
`get_best_partition`. -/
def validLengths (width_ref : Int) : List Int :=
  sortedDescDedup (validLengthsRaw width_ref)

/-- The `while remaining > 0` loop of `get_best_partition`: take the first
(= largest) valid length that still fits, otherwise a 1-unit segment.
Each iteration decreases `remaining` by at least 1, so running the loop
with `fuel = remaining` is exact; a found non-positive length would make
the Python loop diverge, which is unreachable for the actual catalog and
is mapped to `[]`. -/
def partitionLoop (valid : List Int) : (fuel remaining : Nat) → List Int
  | 0, _ => []
  | _, 0 => []
  | (f + 1), (r + 1) =>
    match valid.find? (fun L => decide (L ≤ ((r : Int) + 1))) with
    | some L =>
      if 0 < L then
        L :: partitionLoop valid f (r + 1 - L.toNat)
      else []
    | none => 1 :: partitionLoop valid f r

/-- `get_best_partition`: split a total length into catalog-valid segments,
largest first. -/
def get_best_partition (total_length width_ref : Int) : List Int :=
  partitionLoop (validLengths width_ref) total_length.toNat total_length.toNat

example : validLengths 1 = [4, 2, 1] := by decide
example : get_best_partition 7 1 = [4, 2, 1] := by decide

/-! ### solver.py : layer optimization passes and solve_greedy_stripe -/

/-- Strict lexicographic order on the `(a, b)` sort keys used by the
Python `list.sort(key=...)` calls. -/
def keyLt (a b : Int × Int) : Bool :=
  decide (a.1 < b.1 ∨ (a.1 = b.1 ∧ a.2 < b.2))

/-- Stable insertion of a brick into a key-sorted list: the brick goes in
front of the first element whose key is not strictly smaller. -/
def insertByKey (key : Brick → Int × Int) (b : Brick) : List Brick → List Brick
  | [] => [b]
  | c :: cs =>
    if keyLt (key c) (key b) then c :: insertByKey key b cs
    else b :: c :: cs

/-- Stable sort by key, mirroring Python's stable `list.sort(key=...)`. -/
def sortByKey (key : Brick → Int × Int) : List Brick → List Brick
  | [] => []
  | b :: bs => insertByKey key b (sortByKey key bs)

/-- Continuity test of `optimize_layer_smart`: same cross coordinate and
color, and the new brick starts exactly where the last one ends along the
main axis ("H" uses x/length, any other orientation uses y/width). -/
def isContinuous (orient : String) (last b : Brick) : Bool :=
  if orient = "H" then
    decide (b.y = last.y ∧ b.color = last.color ∧ b.x = last.x + last.length)
  else
    decide (b.x = last.x ∧ b.color = last.color ∧ b.y = last.y + last.width)

/-- Horizontal segment rebuild of `process_run`: one brick per segment,
advancing the running x coordinate. -/
def buildSegsH (layer y wref color : Int) : List Int → Int → List Brick
  | [], _ => []
  | s :: ss, cx =>
    ⟨layer, cx, y, s, wref, color, "H"⟩ :: buildSegsH layer y wref color ss (cx + s)

/-- Vertical segment rebuild of `process_run`: `length` holds the reference
width and `width` the segment, advancing the running y coordinate. -/
def buildSegsV (layer x wref color : Int) : List Int → Int → List Brick
  | [], _ => []
  | s :: ss, cy =>
    ⟨layer, x, cy, wref, s, color, "V"⟩ :: buildSegsV layer x wref color ss (cy + s)

/-- `process_run`: turn a continuous run of bricks into the optimal
partition of its total extent. -/
def process_run (run : List Brick) (orient : String) : List Brick :=
  match run with
  | [] => []
  | ref :: _ =>
    if orient = "H" then
      let total := (run.map (·.length)).sum
      let wref := ref.width
      buildSegsH ref.layer ref.y wref ref.color (get_best_partition total wref) ref.x
    else
      let total := (run.map (·.width)).sum
      let wref := ref.length
      buildSegsV ref.layer ref.x wref ref.color (get_best_partition total wref) ref.y

/-- Run-splitting loop of `optimize_layer_smart`; `run` holds the current
run in reverse order (head = most recently appended brick). -/
def runsLoop (orient : String) : (run rest : List Brick) → List Brick
  | run, [] => process_run run.reverse orient
  | run, b :: bs =>
    match run with
    | [] => runsLoop orient [b] bs
    | last :: _ =>
      if isContinuous orient last b then runsLoop orient (b :: run) bs
      else process_run run.reverse orient ++ runsLoop orient [b] bs

/-- `optimize_layer_smart`: sort, split into continuous runs, re-partition
each run optimally. -/
def optimize_layer_smart (bricks : List Brick) (orient : String) : List Brick :=
  let sorted :=
    if orient = "H" then sortByKey (fun b => (b.y, b.x)) bricks
    else sortByKey (fun b => (b.x, b.y)) bricks
  match sorted with
  | [] => []
  | b :: bs => runsLoop orient [b] bs

/-- Pairwise widening loop of `optimize_layer_2d_side`: merge a brick with
its immediate successor in the sorted list when possible, else keep it. -/
def sideLoop : List Brick → List Brick
  | [] => []
  | [b1] => [b1]
  | b1 :: b2 :: rest =>
    match merge_bricks_side b1 b2 with
    | some m => m :: sideLoop rest
    | none => b1 :: sideLoop (b2 :: rest)
  termination_by l => l.length

/-- `optimize_layer_2d_side`: sort, then widen pairwise. -/
def optimize_layer_2d_side (bricks : List Brick) (orient : String) : List Brick :=
  let sorted :=
    if orient = "H" then sortByKey (fun b => (b.x, b.y)) bricks
    else sortByKey (fun b => (b.y, b.x)) bricks
  sideLoop sorted

/-- Insert a value into a strictly ascending list, dropping duplicates. -/
def insertAsc {α : Type} [LinearOrder α] (v : α) : List α → List α
  | [] => [v]
  | y :: ys =>
    if v < y then v :: y :: ys
    else if v = y then y :: ys
    else y :: insertAsc v ys

/-- `sorted(layers.keys())`: the distinct layer indices in ascending order. -/
def sortedLayerKeys (bricks : List Brick) : List Int :=
  (bricks.map (·.layer)).foldl (fun acc v => insertAsc v acc) []

/-- `solve_greedy_stripe`: per layer (even layers "H", odd layers "V"),
run the smart partition pass then the side-merge pass, and concatenate in
ascending layer order.  The final reduction percentage divides by
`len(bricks)`, which raises `ZeroDivisionError` on an empty input; this is
modelled by returning `Except.error`. -/
def solve_greedy_stripe (bricks : List Brick) : Except String (List Brick) :=
  let final :=
    ((sortedLayerKeys bricks).map (fun k =>
      let content := bricks.filter (fun b => decide (b.layer = k))
      let orient := if k % 2 = 0 then "H" else "V"
      optimize_layer_2d_side (optimize_layer_smart content orient) orient)).flatten
  if bricks.isEmpty then Except.error "ZeroDivisionError"
  else Except.ok final

/-! ### Helper lemmas for the merge soundness theorem -/

/-- Soundness of `can_merge`: a positive answer forces equal layer, color
and orientation, the neighbor relation, and the orientation-specific
alignment equalities. -/
lemma can_merge_sound (b1 b2 : Brick) (h : can_merge b1 b2 = true) :
    b1.layer = b2.layer ∧ b1.color = b2.color ∧ b1.orientation = b2.orientation ∧
    are_neighbors b1 b2 = true ∧
    ((b1.orientation = "H" ∧ b1.y = b2.y ∧ b1.width = b2.width) ∨
     (b1.orientation = "V" ∧ b1.x = b2.x ∧ b1.length = b2.length)) := by
  unfold can_merge at h
  split_ifs at h with hA hB hH hV
  · simp only [not_or, not_not] at hA hB
    refine ⟨hA.1, hA.2.1, hA.2.2, hB, Or.inl ⟨hH, ?_⟩⟩
    simpa using h
  · simp only [not_or, not_not] at hA hB
    refine ⟨hA.1, hA.2.1, hA.2.2, hB, Or.inr ⟨hV, ?_⟩⟩
    simpa using h

/-- Two adjacent 1×1 horizontal bricks of the same color on layer 0. -/
def brickH1 : Brick := ⟨0, 0, 0, 1, 1, 4, "H"⟩

/-- The right neighbor of `brickH1`. -/
def brickH2 : Brick := ⟨0, 1, 0, 1, 1, 4, "H"⟩

/-! ### Claim theorems for the solver and merge modules -/

/-- C1 (counterexample): against the actual catalog `VALID_SIZES`, the
lengths compatible with width 1 are `{1, 2, 4}` (not `{1, 2, 3, 4, 6, 8}`),
and `get_best_partition 7 1` returns `[4, 2, 1]`, not `[4, 3]`. -/
theorem get_best_partition_7_1_cex :
    get_best_partition 7 1 ≠ [4, 3] ∧ validLengths 1 ≠ [8, 6, 4, 3, 2, 1] := by
  decide

/-- C1 (amended): `get_best_partition` collects the catalog lengths
compatible with the reference width — for width 1 the set `{1, 2, 4}`,
sorted descending to `[4, 2, 1]` — and greedily subtracts the largest
length that still fits, so `get_best_partition 7 1 = [4, 2, 1]`. -/
theorem get_best_partition_7_1 :
    validLengths 1 = [4, 2, 1] ∧ get_best_partition 7 1 = [4, 2, 1] := by
  decide

/-- C5: the longitudinal merge produces a brick only when the two bricks
share layer, color and orientation, are neighbors, and the combined
footprint is catalog-valid; for "H" bricks it moreover forces equal `y`
and `width` with summed `length`, for "V" bricks equal `x` and `length`
with summed `width` — in every other case `merge_bricks` returns `none`. -/
theorem merge_bricks_sound (b1 b2 m : Brick) (h : merge_bricks b1 b2 = some m) :
    b1.layer = b2.layer ∧ b1.color = b2.color ∧ b1.orientation = b2.orientation ∧
    are_neighbors b1 b2 = true ∧
    ((b1.orientation = "H" ∧ b1.y = b2.y ∧ b1.width = b2.width ∧
        m.length = b1.length + b2.length ∧ m.width = b1.width ∧
        is_valid_lego_part m.length m.width = true) ∨
     (b1.orientation = "V" ∧ b1.x = b2.x ∧ b1.length = b2.length ∧
        m.width = b1.width + b2.width ∧ m.length = b1.length ∧
        is_valid_lego_part m.length m.width = true)) := by
  by_cases hcm : can_merge b1 b2 = true
  · obtain ⟨h1, h2, h3, h4, h5⟩ := can_merge_sound b1 b2 hcm
    refine ⟨h1, h2, h3, h4, ?_⟩
    rcases h5 with ⟨hor, hy, hw⟩ | ⟨hor, hx, hl⟩
    · -- orientation "H"
      simp only [merge_bricks, hcm, hor, not_true_eq_false, if_false, if_pos rfl] at h
      by_cases hval : is_valid_lego_part (b1.length + b2.length) b1.width = true
      · rw [if_pos hval] at h
        have hm := Option.some.inj h
        subst hm
        exact Or.inl ⟨hor, hy, hw, rfl, rfl, hval⟩
      · rw [if_neg hval] at h
        exact absurd h (by simp)
    · -- orientation "V"
      have hne : ¬ (b1.orientation = "H") := by simp [hor]
      simp only [merge_bricks, hcm, hor, hne, not_true_eq_false, if_false, if_pos rfl] at h
      by_cases hval : is_valid_lego_part b1.length (b1.width + b2.width) = true
      · rw [if_pos hval] at h
        have hm := Option.some.inj h
        subst hm
        exact Or.inr ⟨hor, hx, hl, rfl, rfl, hval⟩
      · rw [if_neg hval] at h
        exact absurd h (by simp)
  · simp only [merge_bricks, hcm, not_false_iff, if_pos, if_true] at h
    exact absurd h (by simp)

/-- Witness for C5: the two adjacent 1×1 bricks merge into a 1×2, and the
soundness conditions hold for them. -/
theorem merge_bricks_sound_witness :
    merge_bricks brickH1 brickH2 = some ⟨0, 0, 0, 2, 1, 4, "H"⟩ ∧
    (brickH1.layer = brickH2.layer ∧ brickH1.color = brickH2.color ∧
     brickH1.orientation = brickH2.orientation ∧
     are_neighbors brickH1 brickH2 = true ∧
     ((brickH1.orientation = "H" ∧ brickH1.y = brickH2.y ∧
         brickH1.width = brickH2.width ∧
         (⟨0, 0, 0, 2, 1, 4, "H"⟩ : Brick).length = brickH1.length + brickH2.length ∧
         (⟨0, 0, 0, 2, 1, 4, "H"⟩ : Brick).width = brickH1.width ∧
         is_valid_lego_part (⟨0, 0, 0, 2, 1, 4, "H"⟩ : Brick).length
           (⟨0, 0, 0, 2, 1, 4, "H"⟩ : Brick).width = true) ∨
      (brickH1.orientation = "V" ∧ brickH1.x = brickH2.x ∧
         brickH1.length = brickH2.length ∧
         (⟨0, 0, 0, 2, 1, 4, "H"⟩ : Brick).width = brickH1.width + brickH2.width ∧
         (⟨0, 0, 0, 2, 1, 4, "H"⟩ : Brick).length = brickH1.length ∧
         is_valid_lego_part (⟨0, 0, 0, 2, 1, 4, "H"⟩ : Brick).length
           (⟨0, 0, 0, 2, 1, 4, "H"⟩ : Brick).width = true))) :=
  ⟨by decide, merge_bricks_sound brickH1 brickH2 _ (by decide)⟩

/-- C10: on an empty brick list, `solve_greedy_stripe` fails with a
division-by-zero error (the reduction percentage divides by the initial
brick count) instead of returning an empty result. -/
theorem solve_greedy_stripe_empty_fails :
    solve_greedy_stripe [] = Except.error "ZeroDivisionError" := rfl

/-! ### donnees_echantillonnees_LIDAR.py : spatial samplers -/

/-- One record of the structured output array: real coordinates and the
LiDAR classification code. -/
structure LidarPoint where
  x : Rat
  y : Rat
  z : Rat
  classification : Nat
deriving DecidableEq, Repr

/-- The rectangle mask of `LIDAR_rectangle`:
`x_min_coin ≤ x ≤ x_min_coin + longueur_x` and similarly for y. -/
def inRectangle (x_min_coin y_min_coin longueur_x longueur_y : Rat)
    (p : LidarPoint) : Bool :=
  decide (x_min_coin ≤ p.x ∧ p.x ≤ x_min_coin + longueur_x ∧
          y_min_coin ≤ p.y ∧ p.y ≤ y_min_coin + longueur_y)

/-- The square mask of `LIDAR_carre_aleatoire` for the randomly drawn
corner `(x0, y0)`. -/
def inSquare (x0 y0 taille_zone : Rat) (p : LidarPoint) : Bool :=
  decide (x0 ≤ p.x ∧ p.x ≤ x0 + taille_zone ∧
          y0 ≤ p.y ∧ p.y ≤ y0 + taille_zone)

/-- `LIDAR_rectangle`: keep the in-rectangle points; when more than
`nb_points` are selected, subsample down to `nb_points` via the random
subselection `choice` (modelling `np.random.choice(replace=False)`). -/
def LIDAR_rectangle (pts : List LidarPoint) (nb_points : Nat)
    (x_min_coin y_min_coin longueur_x longueur_y : Rat)
    (choice : List LidarPoint → Nat → List LidarPoint) : List LidarPoint :=
  let zone := pts.filter (inRectangle x_min_coin y_min_coin longueur_x longueur_y)
  if nb_points < zone.length then choice zone nb_points else zone

/-- `LIDAR_carre_aleatoire`: same selection against the random square
with corner `(x0, y0)` (the `np.random.uniform` draws) and side
`taille_zone`. -/
def LIDAR_carre_aleatoire (pts : List LidarPoint) (nb_points : Nat)
    (taille_zone x0 y0 : Rat)
    (choice : List LidarPoint → Nat → List LidarPoint) : List LidarPoint :=
  let zone := pts.filter (inSquare x0 y0 taille_zone)
  if nb_points < zone.length then choice zone nb_points else zone

/-- C9: provided the subsampler returns exactly the requested number of
points (the contract of `np.random.choice` without replacement), both
spatial samplers return all in-region points when they number at most
`nb_points` and exactly `nb_points` otherwise — hence never more than
`nb_points` — and an empty selection yields the empty array, not an
error. -/
theorem sampler_length_correct (pts : List LidarPoint) (nb_points : Nat)
    (x_min_coin y_min_coin longueur_x longueur_y taille_zone x0 y0 : Rat)
    (choice : List LidarPoint → Nat → List LidarPoint)
    (hchoice : ∀ l k, k ≤ l.length → (choice l k).length = k) :
    ((pts.filter (inRectangle x_min_coin y_min_coin longueur_x longueur_y)).length ≤ nb_points →
      (LIDAR_rectangle pts nb_points x_min_coin y_min_coin longueur_x longueur_y choice).length =
        (pts.filter (inRectangle x_min_coin y_min_coin longueur_x longueur_y)).length) ∧
    (nb_points < (pts.filter (inRectangle x_min_coin y_min_coin longueur_x longueur_y)).length →
      (LIDAR_rectangle pts nb_points x_min_coin y_min_coin longueur_x longueur_y choice).length = nb_points) ∧
    (LIDAR_rectangle pts nb_points x_min_coin y_min_coin longueur_x longueur_y choice).length ≤ nb_points ∧
    ((pts.filter (inRectangle x_min_coin y_min_coin longueur_x longueur_y)).length = 0 →
      LIDAR_rectangle pts nb_points x_min_coin y_min_coin longueur_x longueur_y choice = []) ∧
    ((pts.filter (inSquare x0 y0 taille_zone)).length ≤ nb_points →
      (LIDAR_carre_aleatoire pts nb_points taille_zone x0 y0 choice).length =
        (pts.filter (inSquare x0 y0 taille_zone)).length) ∧
    (nb_points < (pts.filter (inSquare x0 y0 taille_zone)).length →
      (LIDAR_carre_aleatoire pts nb_points taille_zone x0 y0 choice).length = nb_points) ∧
    (LIDAR_carre_aleatoire pts nb_points taille_zone x0 y0 choice).length ≤ nb_points ∧
    ((pts.filter (inSquare x0 y0 taille_zone)).length = 0 →
      LIDAR_carre_aleatoire pts nb_points taille_zone x0 y0 choice = []) := by
  constructor
  · intro hle
    unfold LIDAR_rectangle
    rw [if_neg (by omega)]
  constructor
  · intro hgt
    unfold LIDAR_rectangle
    rw [if_pos hgt]
    exact hchoice _ _ (le_of_lt hgt)
  constructor
  · unfold LIDAR_rectangle
    by_cases hgt : nb_points < (pts.filter (inRectangle x_min_coin y_min_coin longueur_x longueur_y)).length
    · rw [if_pos hgt, hchoice _ _ (le_of_lt hgt)]
    · rw [if_neg hgt]; omega
  constructor
  · intro h0
    unfold LIDAR_rectangle
    rw [if_neg (by omega)]
    exact List.length_eq_zero.mp h0
  constructor
  · intro hle
    unfold LIDAR_carre_aleatoire
    rw [if_neg (by omega)]
  constructor
  · intro hgt
    unfold LIDAR_carre_aleatoire
    rw [if_pos hgt]
    exact hchoice _ _ (le_of_lt hgt)
  constructor
  · unfold LIDAR_carre_aleatoire
    by_cases hgt : nb_points < (pts.filter (inSquare x0 y0 taille_zone)).length
    · rw [if_pos hgt, hchoice _ _ (le_of_lt hgt)]
    · rw [if_neg hgt]; omega
  · intro h0
    unfold LIDAR_carre_aleatoire
    rw [if_neg (by omega)]
    exact List.length_eq_zero.mp h0

/-- A concrete point inside the unit square at the origin. -/
def samplePoint : LidarPoint := ⟨1/2, 1/2, 0, 2⟩

/-- Witness for C9: with the prefix-taking subsampler and a single
in-region point against `nb_points = 0`, the samplers return 0 points. -/
theorem sampler_length_correct_witness :
    (∀ (l : List LidarPoint) k, k ≤ l.length → (l.take k).length = k) ∧
    (([samplePoint].filter (inRectangle 0 0 1 1)).length ≤ 1 →
      (LIDAR_rectangle [samplePoint] 1 0 0 1 1 (fun l k => l.take k)).length =
        ([samplePoint].filter (inRectangle 0 0 1 1)).length) := by
  refine ⟨fun l k hk => by simpa using hk, ?_⟩
  exact (sampler_length_correct [samplePoint] 1 0 0 1 1 1 0 0 (fun l k => l.take k)
    (fun l k hk => by simpa using hk)).1

/-! ### LIDAR_couches.py : per-voxel tallies, majority class, density threshold

The geometric indexing step assigns every valid point a voxel index
`(iy, ix, iz)`; the properties below concern the tally/majority/threshold
logic applied afterwards, so the embedding starts from indexed samples. -/

/-- A LiDAR point after the indexing step: its voxel index and its
classification code. -/
structure Sample where
  voxel : Nat × Nat × Nat
  classification : Nat
deriving DecidableEq, Repr

/-- `np.unique(classification)`: the distinct classification codes in
ascending order. -/
def classesUniques (samples : List Sample) : List Nat :=
  (samples.map (·.classification)).foldl (fun acc v => insertAsc v acc) []

/-- One cell of the `class_counts` histogram: the number of points of
classification `c` falling in voxel `v`. -/
def classCountRaw (samples : List Sample) (v : Nat × Nat × Nat) (c : Nat) : Nat :=
  (samples.filter (fun s => decide (s.voxel = v ∧ s.classification = c))).length

/-- `counts` from `np.histogramdd`: the number of points in voxel `v`. -/
def countsVoxel (samples : List Sample) (v : Nat × Nat × Nat) : Nat :=
  (samples.filter (fun s => decide (s.voxel = v))).length

/-- `np.sum(class_counts > 0, axis=-1)`: how many distinct classification
codes have a positive tally in voxel `v`. -/
def presentCount (samples : List Sample) (v : Nat × Nat × Nat) : Nat :=
  ((classesUniques samples).filter (fun c => decide (0 < classCountRaw samples v c))).length

/-- The tally after the unclassified-suppression rule: the code-1 tally is
zeroed in every voxel that contains code 1 together with at least one
other present classification. -/
def classCountAdj (samples : List Sample) (v : Nat × Nat × Nat) (c : Nat) : Nat :=
  if c = 1 ∧ 0 < classCountRaw samples v 1 ∧ 1 < presentCount samples v then 0
  else classCountRaw samples v c

/-- `np.argmax` along the class axis: the first element of `cs` attaining
the maximal tally (`np.argmax` over an empty axis errors; that case is
mapped to 0 and is unreachable when a point exists). -/
def argmaxClass (cs : List Nat) (tally : Nat → Nat) : Nat :=
  match cs with
  | [] => 0
  | c :: rest => rest.foldl (fun best c2 => if tally best < tally c2 then c2 else best) c

/-- `class_maj` before the density threshold: the first class of the
ascending enumeration attaining the maximal adjusted tally in voxel `v`. -/
def classMajRaw (samples : List Sample) (v : Nat × Nat × Nat) : Nat :=
  argmaxClass (classesUniques samples) (classCountAdj samples v)

/-- `counts` after the density threshold: voxels below `densite_min` are
reset to 0. -/
def countsFinal (samples : List Sample) (densite_min : Nat) (v : Nat × Nat × Nat) : Nat :=
  if countsVoxel samples v < densite_min then 0 else countsVoxel samples v

/-- `class_maj` after the density threshold: voxels below `densite_min`
are reset to class 0. -/
def classMajFinal (samples : List Sample) (densite_min : Nat) (v : Nat × Nat × Nat) : Nat :=
  if countsVoxel samples v < densite_min then 0 else classMajRaw samples v

/-! #### Helper lemmas on `insertAsc`, `classesUniques` and `argmaxClass` -/

lemma insertAsc_mem {α : Type} [LinearOrder α] (a v : α) (l : List α) :
    a ∈ insertAsc v l ↔ a = v ∨ a ∈ l := by
  induction l with
  | nil => simp [insertAsc]
  | cons y ys ih =>
    unfold insertAsc
    split_ifs with h1 h2
    · simp
    · subst h2; simp
    · simp only [List.mem_cons, ih]; tauto

lemma insertAsc_sorted {α : Type} [LinearOrder α] (v : α) (l : List α)
    (h : l.Sorted (· < ·)) : (insertAsc v l).Sorted (· < ·) := by
  induction l with
  | nil => simp [insertAsc]
  | cons y ys ih =>
    unfold insertAsc
    rw [List.sorted_cons] at h
    split_ifs with h1 h2
    · rw [List.sorted_cons]
      refine ⟨?_, by rw [List.sorted_cons]; exact h⟩
      intro b hb
      rcases List.mem_cons.mp hb with rfl | hb
      · exact h1
      · exact lt_trans h1 (h.1 b hb)
    · rw [List.sorted_cons]; exact h
    · rw [List.sorted_cons]
      refine ⟨?_, ih h.2⟩
      intro b hb
      rcases (insertAsc_mem b v ys).mp hb with rfl | hb
      · exact lt_of_le_of_ne (le_of_not_lt h1) (fun hya => h2 hya.symm)
      · exact h.1 b hb

lemma foldl_insertAsc_mem {α : Type} [LinearOrder α] (a : α) (xs : List α)
    (init : List α) :
    a ∈ xs.foldl (fun acc v => insertAsc v acc) init ↔ a ∈ init ∨ a ∈ xs := by
  induction xs generalizing init with
  | nil => simp
  | cons x xs ih =>
    simp only [List.foldl_cons, ih, insertAsc_mem, List.mem_cons]
    tauto

lemma foldl_insertAsc_sorted {α : Type} [LinearOrder α] (xs : List α)
    (init : List α) (h : init.Sorted (· < ·)) :
    (xs.foldl (fun acc v => insertAsc v acc) init).Sorted (· < ·) := by
  induction xs generalizing init with
  | nil => simpa
  | cons x xs ih => exact ih _ (insertAsc_sorted x init h)

lemma mem_classesUniques (samples : List Sample) (c : Nat) :
    c ∈ classesUniques samples ↔ ∃ s ∈ samples, s.classification = c := by
  unfold classesUniques
  rw [foldl_insertAsc_mem]
  simp [List.mem_map, eq_comm]

lemma classesUniques_sorted (samples : List Sample) :
    (classesUniques samples).Sorted (· < ·) :=
  foldl_insertAsc_sorted _ _ (by simp)

lemma classCountRaw_pos (samples : List Sample) (v : Nat × Nat × Nat) (c : Nat)
    (h : 0 < classCountRaw samples v c) : ∃ s ∈ samples, s.classification = c := by
  unfold classCountRaw at h
  rcases List.exists_mem_of_length_pos h with ⟨s, hs⟩
  rcases List.mem_filter.mp hs with ⟨hmem, hcond⟩
  simp only [decide_eq_true_eq] at hcond
  exact ⟨s, hmem, hcond.2⟩

lemma two_le_length_of_two_mem {α : Type} {a b : α} {m : List α}
    (ha : a ∈ m) (hb : b ∈ m) (hne : a ≠ b) : 2 ≤ m.length := by
  cases m with
  | nil => cases ha
  | cons x xs =>
    cases xs with
    | nil =>
      simp only [List.mem_singleton] at ha hb
      exact absurd (ha.trans hb.symm) hne
    | cons y ys => simp only [List.length_cons]; omega

lemma presentCount_two (samples : List Sample) (v : Nat × Nat × Nat) (c0 : Nat)
    (h1 : 0 < classCountRaw samples v 1) (hc0ne : c0 ≠ 1)
    (hc0 : 0 < classCountRaw samples v c0) : 1 < presentCount samples v := by
  unfold presentCount
  have h1mem : (1 : Nat) ∈ classesUniques samples :=
    (mem_classesUniques samples 1).mpr (classCountRaw_pos samples v 1 h1)
  have hc0mem : c0 ∈ classesUniques samples :=
    (mem_classesUniques samples c0).mpr (classCountRaw_pos samples v c0 hc0)
  have hmem1 : (1 : Nat) ∈ (classesUniques samples).filter
      (fun c => decide (0 < classCountRaw samples v c)) :=
    List.mem_filter.mpr ⟨h1mem, by simpa using h1⟩
  have hmemc0 : c0 ∈ (classesUniques samples).filter
      (fun c => decide (0 < classCountRaw samples v c)) :=
    List.mem_filter.mpr ⟨hc0mem, by simpa using hc0⟩
  exact two_le_length_of_two_mem hmem1 hmemc0 (fun h => hc0ne h.symm)

/-! #### The first-argmax fold -/

/-- The running best of `np.argmax` restricted to a candidate list. -/
def argFold (t : Nat → Nat) (b : Nat) (cs : List Nat) : Nat :=
  cs.foldl (fun best c2 => if t best < t c2 then c2 else best) b

lemma argFold_cons (t : Nat → Nat) (b c2 : Nat) (rest : List Nat) :
    argFold t b (c2 :: rest) = argFold t (if t b < t c2 then c2 else b) rest := rfl

lemma argFold_ge_init (t : Nat → Nat) (b : Nat) (cs : List Nat) :
    t b ≤ t (argFold t b cs) := by
  induction cs generalizing b with
  | nil => exact le_refl _
  | cons c2 rest ih =>
    rw [argFold_cons]
    by_cases h : t b < t c2
    · rw [if_pos h]
      exact le_of_lt (lt_of_lt_of_le h (ih c2))
    · rw [if_neg h]
      exact ih b

lemma argFold_ge_mem (t : Nat → Nat) (b : Nat) (cs : List Nat) :
    ∀ c ∈ cs, t c ≤ t (argFold t b cs) := by
  induction cs generalizing b with
  | nil => intro c hc; cases hc
  | cons c2 rest ih =>
    intro c hc
    rw [argFold_cons]
    by_cases h : t b < t c2
    · rw [if_pos h]
      rcases List.mem_cons.mp hc with rfl | hc
      · exact argFold_ge_init t c rest
      · exact ih c2 c hc
    · rw [if_neg h]
      rcases List.mem_cons.mp hc with rfl | hc
      · exact le_trans (le_of_not_lt h) (argFold_ge_init t b rest)
      · exact ih b c hc

lemma argFold_init_cases (t : Nat → Nat) (b : Nat) (cs : List Nat) :
    argFold t b cs = b ∨ t b < t (argFold t b cs) := by
  induction cs generalizing b with
  | nil => exact Or.inl rfl
  | cons c2 rest ih =>
    rw [argFold_cons]
    by_cases h : t b < t c2
    · rw [if_pos h]
      exact Or.inr (lt_of_lt_of_le h (argFold_ge_init t c2 rest))
    · rw [if_neg h]
      exact ih b

lemma argFold_first (t : Nat → Nat) (b : Nat) (cs : List Nat)
    (hs : (b :: cs).Sorted (· < ·)) :
    ∀ c, (c = b ∨ c ∈ cs) → t c = t (argFold t b cs) → argFold t b cs ≤ c := by
  induction cs generalizing b with
  | nil =>
    intro c hc _
    rcases hc with rfl | hc
    · exact le_refl _
    · cases hc
  | cons c2 rest ih =>
    rw [List.sorted_cons] at hs
    have hb2 : b < c2 := hs.1 c2 (List.mem_cons_self _ _)
    have hbrest : ∀ x ∈ rest, b < x :=
      fun x hx => hs.1 x (List.mem_cons_of_mem _ hx)
    intro c hc he
    rw [argFold_cons] at he ⊢
    by_cases h : t b < t c2
    · rw [if_pos h] at he ⊢
      rcases hc with rfl | hc
      · -- c = b cannot tie the maximum, whose tally exceeds t b
        have h3 := argFold_ge_init t c2 rest
        omega
      · exact ih c2 hs.2 c (List.mem_cons.mp hc) he
    · rw [if_neg h] at he ⊢
      have hsbr : (b :: rest).Sorted (· < ·) := by
        rw [List.sorted_cons]
        exact ⟨hbrest, (List.sorted_cons.mp hs.2).2⟩
      rcases hc with rfl | hc
      · exact ih c hsbr c (Or.inl rfl) he
      rcases List.mem_cons.mp hc with rfl | hc
      · -- c = c2, which never strictly beat the initial best b
        rcases argFold_init_cases t b rest with hcase | hcase
        · rw [hcase]; exact le_of_lt hb2
        · rw [← he] at hcase; exact absurd hcase h
      · exact ih b hsbr c (Or.inr hc) he

lemma argmaxClass_ge (cs : List Nat) (t : Nat → Nat) :
    ∀ c ∈ cs, t c ≤ t (argmaxClass cs t) := by
  intro c hc
  cases cs with
  | nil => cases hc
  | cons b rest =>
    show t c ≤ t (argFold t b rest)
    rcases List.mem_cons.mp hc with rfl | hc
    · exact argFold_ge_init t c rest
    · exact argFold_ge_mem t b rest c hc

lemma argmaxClass_first (cs : List Nat) (t : Nat → Nat)
    (hs : cs.Sorted (· < ·)) :
    ∀ c ∈ cs, t c = t (argmaxClass cs t) → argmaxClass cs t ≤ c := by
  intro c hc he
  cases cs with
  | nil => cases hc
  | cons b rest =>
    exact argFold_first t b rest hs c (List.mem_cons.mp hc) he

/-! #### Claim theorems for the voxelizer -/

/-- C3: in a voxel containing classification 1 together with at least one
other classification, the code-1 tally is zeroed before the majority is
selected, so the chosen majority is never 1; the majority is the class of
highest remaining tally, ties resolved in favor of the lowest code. -/
theorem voxel_majority_never_unclassified (samples : List Sample)
    (v : Nat × Nat × Nat)
    (h1 : 0 < classCountRaw samples v 1)
    (h2 : ∃ c, c ≠ 1 ∧ 0 < classCountRaw samples v c) :
    classMajRaw samples v ≠ 1 ∧
    classCountAdj samples v 1 = 0 ∧
    (∀ c ∈ classesUniques samples,
        classCountAdj samples v c ≤ classCountAdj samples v (classMajRaw samples v)) ∧
    (∀ c ∈ classesUniques samples,
        classCountAdj samples v c = classCountAdj samples v (classMajRaw samples v) →
          classMajRaw samples v ≤ c) := by
  obtain ⟨c0, hc0ne, hc0⟩ := h2
  have hc0mem : c0 ∈ classesUniques samples :=
    (mem_classesUniques samples c0).mpr (classCountRaw_pos samples v c0 hc0)
  have hpc : 1 < presentCount samples v :=
    presentCount_two samples v c0 h1 hc0ne hc0
  have hadj1 : classCountAdj samples v 1 = 0 := by
    unfold classCountAdj
    rw [if_pos ⟨rfl, h1, hpc⟩]
  have hadjc0 : classCountAdj samples v c0 = classCountRaw samples v c0 := by
    unfold classCountAdj
    rw [if_neg (fun hcond => hc0ne hcond.1)]
  have hge : ∀ c ∈ classesUniques samples,
      classCountAdj samples v c ≤ classCountAdj samples v (classMajRaw samples v) :=
    argmaxClass_ge (classesUniques samples) (classCountAdj samples v)
  have hfirst : ∀ c ∈ classesUniques samples,
      classCountAdj samples v c = classCountAdj samples v (classMajRaw samples v) →
        classMajRaw samples v ≤ c :=
    argmaxClass_first (classesUniques samples) (classCountAdj samples v)
      (classesUniques_sorted samples)
  refine ⟨?_, hadj1, hge, hfirst⟩
  intro heq
  have hle := hge c0 hc0mem
  rw [heq, hadj1, hadjc0] at hle
  omega

/-- C4: after the density threshold, any voxel whose final count is below
`densite_min` has both its count and its majority class reset to 0. -/
theorem density_threshold_resets (samples : List Sample) (densite_min : Nat)
    (v : Nat × Nat × Nat) (_hd : 1 ≤ densite_min)
    (h : countsFinal samples densite_min v < densite_min) :
    countsFinal samples densite_min v = 0 ∧
    classMajFinal samples densite_min v = 0 := by
  unfold countsFinal at h ⊢
  unfold classMajFinal
  by_cases hc : countsVoxel samples v < densite_min
  · rw [if_pos hc, if_pos hc]
    exact ⟨rfl, rfl⟩
  · rw [if_neg hc] at h
    omega

/-- A voxel holding one unclassified point and one building point. -/
def sampleMix : List Sample := [⟨(0, 0, 0), 1⟩, ⟨(0, 0, 0), 6⟩]

/-- Witness for C3: in the voxel holding classes 1 and 6, the majority is
not 1. -/
theorem voxel_majority_never_unclassified_witness :
    0 < classCountRaw sampleMix (0, 0, 0) 1 ∧
    (∃ c, c ≠ 1 ∧ 0 < classCountRaw sampleMix (0, 0, 0) c) ∧
    (classMajRaw sampleMix (0, 0, 0) ≠ 1 ∧
     classCountAdj sampleMix (0, 0, 0) 1 = 0 ∧
     (∀ c ∈ classesUniques sampleMix,
         classCountAdj sampleMix (0, 0, 0) c ≤
           classCountAdj sampleMix (0, 0, 0) (classMajRaw sampleMix (0, 0, 0))) ∧
     (∀ c ∈ classesUniques sampleMix,
         classCountAdj sampleMix (0, 0, 0) c =
           classCountAdj sampleMix (0, 0, 0) (classMajRaw sampleMix (0, 0, 0)) →
           classMajRaw sampleMix (0, 0, 0) ≤ c)) :=
  ⟨by decide, ⟨6, by decide, by decide⟩,
   voxel_majority_never_unclassified sampleMix (0, 0, 0) (by decide)
     ⟨6, by decide, by decide⟩⟩

/-- Witness for C4: a single point in a voxel against `densite_min = 2`
gets its count and class reset to 0. -/
theorem density_threshold_resets_witness :
    1 ≤ 2 ∧ countsFinal [⟨(0, 0, 0), 2⟩] 2 (0, 0, 0) < 2 ∧
    (countsFinal [⟨(0, 0, 0), 2⟩] 2 (0, 0, 0) = 0 ∧
     classMajFinal [⟨(0, 0, 0), 2⟩] 2 (0, 0, 0) = 0) :=
  ⟨by decide, by decide,
   density_threshold_resets [⟨(0, 0, 0), 2⟩] 2 (0, 0, 0) (by decide) (by decide)⟩

/-! ### LIDAR_traitement.py : shell erosion with pillar protection
(`ajouter_sol_coque_pillier`, COQUE AVEC PILIERS section)

The dense class grid built by the function is modelled as a function on
shifted indices together with its three extents; the erosion step and the
pillar mask are embedded exactly as the numpy slice operations compute
them. -/

/-- `is_internal` of the COQUE AVEC PILIERS section: a cell is internal
when it is ground, not on any face of the grid, and all six axis
neighbors are ground. -/
def is_internal_coque (g : Nat × Nat × Nat → Int) (n1 n2 n3 : Nat)
    (class_sol : Int) (x y z : Nat) : Bool :=
  decide (g (x, y, z) = class_sol ∧
          0 < x ∧ x + 1 < n1 ∧ 0 < y ∧ y + 1 < n2 ∧ 0 < z ∧ z + 1 < n3 ∧
          g (x + 1, y, z) = class_sol ∧ g (x - 1, y, z) = class_sol ∧
          g (x, y + 1, z) = class_sol ∧ g (x, y - 1, z) = class_sol ∧
          g (x, y, z + 1) = class_sol ∧ g (x, y, z - 1) = class_sol)

/-- `pillar_mask_2d`: the pillar protection applies when `pillar_step > 0`
and both `x mod pillar_step` and `y mod pillar_step` are below
`pillar_width`. -/
def pillar_mask_2d (pillar_step pillar_width x y : Nat) : Bool :=
  decide (0 < pillar_step ∧ x % pillar_step < pillar_width ∧
          y % pillar_step < pillar_width)

/-- `grid[is_internal] = 0`: erase internal ground cells except in
protected pillar columns. -/
def coque_pillier_erosion (g : Nat × Nat × Nat → Int) (n1 n2 n3 : Nat)
    (class_sol : Int) (pillar_step pillar_width : Nat)
    (c : Nat × Nat × Nat) : Int :=
  if is_internal_coque g n1 n2 n3 class_sol c.1 c.2.1 c.2.2 = true ∧
     ¬ (pillar_mask_2d pillar_step pillar_width c.1 c.2.1 = true) then 0
  else g c

/-- C6: with `pillar_step = 4` and `pillar_width = 2`, every column whose
coordinates satisfy `x mod 4 < 2` and `y mod 4 < 2` is exempt from the
shell erosion: every voxel of the column keeps its class — in particular
fully interior ground voxels survive. -/
theorem pillar_columns_survive_erosion (g : Nat × Nat × Nat → Int)
    (n1 n2 n3 : Nat) (class_sol : Int) (x y : Nat)
    (hx : x % 4 < 2) (hy : y % 4 < 2) :
    ∀ z, coque_pillier_erosion g n1 n2 n3 class_sol 4 2 (x, y, z) = g (x, y, z) := by
  intro z
  unfold coque_pillier_erosion
  rw [if_neg]
  intro hcond
  exact hcond.2 (by simp [pillar_mask_2d, hx, hy])

/-- An all-ground 5×5×5 grid. -/
def solidGrid : Nat × Nat × Nat → Int := fun _ => 2

/-- Witness for C6: in the solid grid, the voxel `(1, 1, 2)` is fully
interior, yet its column satisfies the pillar condition and survives. -/
theorem pillar_columns_survive_erosion_witness :
    1 % 4 < 2 ∧ 1 % 4 < 2 ∧
    is_internal_coque solidGrid 5 5 5 2 1 1 2 = true ∧
    coque_pillier_erosion solidGrid 5 5 5 2 4 2 (1, 1, 2) = solidGrid (1, 1, 2) :=
  ⟨by decide, by decide, by decide,
   pillar_columns_survive_erosion solidGrid 5 5 5 2 1 1 (by decide) (by decide) 2⟩

/-! ### LIDAR_traitement.py : graphe_filtre_sol

A voxel graph is a node list with an (undirected) adjacency table and a
per-node class; `nx.connected_components` places two nodes in the same
component exactly when a path of graph edges joins them, so component
membership is embedded as reflexive-transitive reachability. -/

/-- A voxel graph: its node identifiers, its adjacency table (undirected:
an edge is present in either orientation), and the `class_maj` node
attribute. -/
structure VoxGraph where
  nodes : List Nat
  adj : Nat → Nat → Bool
  cls : Nat → Int

/-- One undirected edge step inside the graph: both endpoints are nodes
and the adjacency table records the edge in some orientation. -/
def VoxGraph.Adj (G : VoxGraph) (u v : Nat) : Prop :=
  u ∈ G.nodes ∧ v ∈ G.nodes ∧ (G.adj u v = true ∨ G.adj v u = true)

/-- Same-component relation of `nx.connected_components`: a path of edges
joins `u` to `v`. -/
def VoxGraph.Reach (G : VoxGraph) (u v : Nat) : Prop :=
  Relation.ReflTransGen G.Adj u v

/-- Node set of the graph returned by `graphe_filtre_sol`: a node is kept
exactly when its connected component contains a node of class
`class_sol`. -/
def garde_sol (G : VoxGraph) (class_sol : Int) (n : Nat) : Prop :=
  n ∈ G.nodes ∧ ∃ m, G.Reach n m ∧ G.cls m = class_sol

/-- Reachability inside the induced subgraph on the kept nodes: every
step stays within the surviving node set. -/
def ReachKept (G : VoxGraph) (class_sol : Int) (u v : Nat) : Prop :=
  Relation.ReflTransGen
    (fun a b => garde_sol G class_sol a ∧ garde_sol G class_sol b ∧ G.Adj a b) u v

lemma reach_target_mem (G : VoxGraph) {n m : Nat} (h : G.Reach n m)
    (hn : n ∈ G.nodes) : m ∈ G.nodes := by
  induction h with
  | refl => exact hn
  | tail _ hbc _ => exact hbc.2.1

/-- C7: every connected component of the graph returned by
`graphe_filtre_sol` contains a ground-class node (each kept node reaches,
inside the filtered graph, a kept ground node), and every input component
containing no ground node is removed in its entirety. -/
theorem graphe_filtre_sol_components (G : VoxGraph) (class_sol : Int) :
    (∀ n, garde_sol G class_sol n →
        ∃ m, garde_sol G class_sol m ∧ G.cls m = class_sol ∧
          ReachKept G class_sol n m) ∧
    (∀ n ∈ G.nodes, (∀ m, G.Reach n m → G.cls m ≠ class_sol) →
        ¬ garde_sol G class_sol n) := by
  constructor
  · rintro n ⟨hn, m, hreach, hm⟩
    have hmnode : m ∈ G.nodes := reach_target_mem G hreach hn
    have key : ∀ a, G.Reach a m → a ∈ G.nodes → ReachKept G class_sol a m := by
      intro a ha
      induction ha using Relation.ReflTransGen.head_induction_on with
      | refl => intro _; exact Relation.ReflTransGen.refl
      | head hac hcm ih =>
        intro hamem
        exact Relation.ReflTransGen.head
          ⟨⟨hamem, m, Relation.ReflTransGen.head hac hcm, hm⟩,
           ⟨hac.2.1, m, hcm, hm⟩, hac⟩
          (ih hac.2.1)
    exact ⟨m, ⟨hmnode, m, Relation.ReflTransGen.refl, hm⟩, hm, key n hreach hn⟩
  · rintro n _ hnone ⟨_, m, hreach, hm⟩
    exact hnone m hreach hm

/-! ### cost_func_change.py : penalties and total cost

Brick identity (`id()` in Python) is modelled by the brick's index in the
input list; the spatial hash map is a function from `(layer, x, y)` cells
to the last indexed brick written there.  Floating point quantities only
undergo exact sums, absolute values and divisions here, so they are
modelled in `Rat`. -/

/-- The cells `(x + dx, y + dy)` covered by a brick, `dx < length`,
`dy < width` (empty for non-positive extents, like Python `range`). -/
def cellList (b : Brick) : List (Int × Int) :=
  ((List.range b.length.toNat).map (fun dx =>
    (List.range b.width.toNat).map (fun dy =>
      (b.x + (dx : Int), b.y + (dy : Int))))).flatten

/-- Point update of the spatial hash map. -/
def updateCell (g : Int × Int × Int → Option (Nat × Brick))
    (c : Int × Int × Int) (v : Nat × Brick) :
    Int × Int × Int → Option (Nat × Brick) :=
  fun c2 => if c2 = c then some v else g c2

/-- `build_grid_map`: write every cell of every indexed brick, later
bricks overwriting earlier ones. -/
def build_grid_map (ibs : List (Nat × Brick)) :
    Int × Int × Int → Option (Nat × Brick) :=
  ibs.foldl
    (fun g ib =>
      (cellList ib.2).foldl
        (fun g2 xy => updateCell g2 (ib.2.layer, xy.1, xy.2) ib) g)
    (fun _ => none)

/-- P1 contribution of one brick: scan its surface, look below, and count
each distinct brick below at most once, penalizing equal orientation. -/
def perpPenaltyBrick (grid : Int × Int × Int → Option (Nat × Brick))
    (z : Int) (ib : Nat × Brick) : Nat :=
  ((cellList ib.2).foldl
    (fun (acc : List Nat × Nat) xy =>
      match grid (z - 1, xy.1, xy.2) with
      | none => acc
      | some jb =>
        if jb.1 ∈ acc.1 then acc
        else (jb.1 :: acc.1,
              acc.2 + (if jb.2.orientation = ib.2.orientation then 1 else 0)))
    ([], 0)).2

/-- `perpendicularity_penalty_fast` over a layer. -/
def perpendicularity_penalty_fast (layer : List (Nat × Brick))
    (grid : Int × Int × Int → Option (Nat × Brick)) (z : Int) : Nat :=
  (layer.map (perpPenaltyBrick grid z)).sum

/-- P2 contribution of one brick: compare the brick below each relevant
edge with the brick just outside it (identity comparison, hence indices). -/
def vertBoundaryPenaltyBrick (grid : Int × Int × Int → Option (Nat × Brick))
    (z : Int) (b : Brick) : Nat :=
  if b.orientation = "H" then
    (if (grid (z - 1, b.x, b.y)).map Prod.fst ≠
        (grid (z - 1, b.x - 1, b.y)).map Prod.fst then 1 else 0) +
    (if (grid (z - 1, b.x + b.length - 1, b.y)).map Prod.fst ≠
        (grid (z - 1, b.x + b.length, b.y)).map Prod.fst then 1 else 0)
  else if b.orientation = "V" then
    (if (grid (z - 1, b.x, b.y)).map Prod.fst ≠
        (grid (z - 1, b.x, b.y - 1)).map Prod.fst then 1 else 0) +
    (if (grid (z - 1, b.x, b.y + b.width - 1)).map Prod.fst ≠
        (grid (z - 1, b.x, b.y + b.width)).map Prod.fst then 1 else 0)
  else 0

/-- `vertical_boundary_penalty_fast` over a layer. -/
def vertical_boundary_penalty_fast (layer : List (Nat × Brick))
    (grid : Int × Int × Int → Option (Nat × Brick)) (z : Int) : Nat :=
  (layer.map (fun ib => vertBoundaryPenaltyBrick grid z ib.2)).sum

/-- Insert a looked-up brick into the neighbor set, deduplicating by
identity (index). -/
def addNb (acc : List (Nat × Brick)) (o : Option (Nat × Brick)) :
    List (Nat × Brick) :=
  match o with
  | none => acc
  | some jb => if jb.1 ∈ acc.map Prod.fst then acc else acc ++ [jb]

/-- The distinct same-layer neighbors of a brick along its long sides. -/
def neighborsOf (grid : Int × Int × Int → Option (Nat × Brick))
    (z : Int) (b : Brick) : List (Nat × Brick) :=
  if b.orientation = "H" then
    (List.range b.length.toNat).foldl
      (fun acc dx =>
        addNb (addNb acc (grid (z, b.x + (dx : Int), b.y - 1)))
          (grid (z, b.x + (dx : Int), b.y + b.width))) []
  else
    (List.range b.width.toNat).foldl
      (fun acc dy =>
        addNb (addNb acc (grid (z, b.x - 1, b.y + (dy : Int))))
          (grid (z, b.x + b.length, b.y + (dy : Int)))) []

/-- One T-junction term: when the neighbor edge falls strictly inside
`(lo, hi)`, its distance to the center normalized by the half extent. -/
def junctionTerm (lo hi edge : Int) : Rat :=
  if lo < edge ∧ edge < hi then
    |(edge : Rat) - ((lo : Rat) + (hi : Rat)) / 2| / (((hi : Rat) - (lo : Rat)) / 2)
  else 0

/-- P3 contribution of one neighbor of a brick: both edges of the
neighbor along the brick's main axis. -/
def p3Term (b n : Brick) : Rat :=
  if b.orientation = "H" then
    junctionTerm b.x (b.x + b.length) n.x +
    junctionTerm b.x (b.x + b.length) (n.x + n.length)
  else
    junctionTerm b.y (b.y + b.width) n.y +
    junctionTerm b.y (b.y + b.width) (n.y + n.width)

/-- `horizontal_alignment_penalty_fast` over a layer. -/
def horizontal_alignment_penalty_fast (layer : List (Nat × Brick))
    (grid : Int × Int × Int → Option (Nat × Brick)) (z : Int) : Rat :=
  (layer.map (fun ib =>
    ((neighborsOf grid z ib.2).map (fun nb => p3Term ib.2 nb.2)).sum)).sum

/-- The indexed bricks of one layer, in input order (`defaultdict`
grouping). -/
def layerBricks (ibs : List (Nat × Brick)) (k : Int) : List (Nat × Brick) :=
  ibs.filter (fun ib => decide (ib.2.layer = k))

/-- `total_cost_function`: 0.0 for no bricks; otherwise the sum over
layers of `C1·P1 + C2·P2` (only when the layer immediately below is
present) plus `C3·P3`. -/
def total_cost_function (bricks : List Brick) (c1 c2 c3 : Rat) : Rat :=
  if bricks = [] then 0
  else
    ((sortedLayerKeys bricks).map (fun k =>
      (if (k - 1) ∈ sortedLayerKeys bricks then
         c1 * perpendicularity_penalty_fast (layerBricks bricks.enum k)
                (build_grid_map bricks.enum) k +
         c2 * vertical_boundary_penalty_fast (layerBricks bricks.enum k)
                (build_grid_map bricks.enum) k
       else 0) +
      c3 * horizontal_alignment_penalty_fast (layerBricks bricks.enum k)
             (build_grid_map bricks.enum) k)).sum

lemma junctionTerm_nonneg (lo hi edge : Int) : 0 ≤ junctionTerm lo hi edge := by
  unfold junctionTerm
  split_ifs with h
  · apply div_nonneg (abs_nonneg _)
    have h1 : (lo : Rat) < edge := by exact_mod_cast h.1
    have h2 : (edge : Rat) < hi := by exact_mod_cast h.2
    linarith
  · exact le_refl 0

lemma p3Term_nonneg (b n : Brick) : 0 ≤ p3Term b n := by
  unfold p3Term
  split_ifs with h
  · exact add_nonneg (junctionTerm_nonneg _ _ _) (junctionTerm_nonneg _ _ _)
  · exact add_nonneg (junctionTerm_nonneg _ _ _) (junctionTerm_nonneg _ _ _)

lemma horizontal_alignment_penalty_fast_nonneg (layer : List (Nat × Brick))
    (grid : Int × Int × Int → Option (Nat × Brick)) (z : Int) :
    0 ≤ horizontal_alignment_penalty_fast layer grid z := by
  unfold horizontal_alignment_penalty_fast
  apply List.sum_nonneg
  intro q hq
  rcases List.mem_map.mp hq with ⟨ib, _, rfl⟩
  apply List.sum_nonneg
  intro r hr
  rcases List.mem_map.mp hr with ⟨nb, _, rfl⟩
  exact p3Term_nonneg _ _

/-- C8: `total_cost_function` is 0 on the empty brick set; it always
equals the sum over present layers of `C1·P1 + C2·P2` gated on the layer
below being present plus `C3·P3`; and with the default unit weights it is
never negative. -/
theorem total_cost_function_props :
    total_cost_function [] 1 1 1 = 0 ∧
    (∀ (bricks : List Brick) (c1 c2 c3 : Rat),
      total_cost_function bricks c1 c2 c3 =
        ((sortedLayerKeys bricks).map (fun k =>
          (if (k - 1) ∈ sortedLayerKeys bricks then
             c1 * perpendicularity_penalty_fast (layerBricks bricks.enum k)
                    (build_grid_map bricks.enum) k +
             c2 * vertical_boundary_penalty_fast (layerBricks bricks.enum k)
                    (build_grid_map bricks.enum) k
           else 0) +
          c3 * horizontal_alignment_penalty_fast (layerBricks bricks.enum k)
                 (build_grid_map bricks.enum) k)).sum) ∧
    (∀ bricks : List Brick, 0 ≤ total_cost_function bricks 1 1 1) := by
  refine ⟨rfl, ?_, ?_⟩
  · intro bricks c1 c2 c3
    unfold total_cost_function
    split_ifs with h
    · subst h
      simp [sortedLayerKeys]
    · rfl
  · intro bricks
    unfold total_cost_function
    split_ifs with h
    · exact le_refl 0
    · apply List.sum_nonneg
      intro q hq
      rcases List.mem_map.mp hq with ⟨k, _, rfl⟩
      apply add_nonneg
      · split_ifs with hbelow
        · apply add_nonneg
          · rw [one_mul]; exact Nat.cast_nonneg _
          · rw [one_mul]; exact Nat.cast_nonneg _
        · exact le_refl 0
      · rw [one_mul]
        exact horizontal_alignment_penalty_fast_nonneg _ _ _

/-! ### LIDAR_traitement.py : voxel_graphe / graphe_voxel round trip

The voxel model is a pair of 3-dimensional arrays indexed `[iy, ix, iz]`.
`voxel_graphe` enumerates the occupied cells in `np.argwhere` order
(lexicographic) and stores on each node the attribute
`coord = (x, y, z)` and the attribute `class_maj`; the edges it also
builds are not read back by `graphe_voxel`, which reconstructs the two
arrays from the node data alone. -/

/-- A voxel grid: the array extents and the two arrays `counts` and
`class_maj`, both indexed by `(iy, ix, iz)`. -/
structure VoxelGrid where
  ny : Nat
  nx : Nat
  nz : Nat
  counts : Nat × Nat × Nat → Nat
  cls : Nat × Nat × Nat → Int

/-- `np.argwhere(counts > 0)`: the occupied cells `(iy, ix, iz)` in
lexicographic order. -/
def occupiedList (g : VoxelGrid) : List (Nat × Nat × Nat) :=
  ((List.range g.ny).map (fun y =>
    ((List.range g.nx).map (fun x =>
      ((List.range g.nz).filter (fun z => decide (0 < g.counts (y, x, z)))).map
        (fun z => (y, x, z)))).flatten)).flatten

/-- The node data built by `voxel_graphe`: for each occupied cell
`(iy, ix, iz)`, the attribute pair `(coord = (x, y, z), class_maj)`. -/
def voxel_graphe_nodes (g : VoxelGrid) : List ((Nat × Nat × Nat) × Int) :=
  (occupiedList g).map (fun c => ((c.2.1, c.1, c.2.2), g.cls c))

/-- The `for (y,x,z), c in zip(coords, classes)` fill loop of
`graphe_voxel`: bump the count is implicit in `List.count`; the class is
written when the cell still holds 0, or holds 1 while the incoming class
differs from 1. -/
def fillClass : List ((Nat × Nat × Nat) × Int) → (Nat × Nat × Nat → Int) →
    (Nat × Nat × Nat → Int)
  | [], m => m
  | (c, k) :: rest, m =>
    fillClass rest
      (fun c2 => if c2 = c then (if m c = 0 ∨ (m c = 1 ∧ k ≠ 1) then k else m c)
                 else m c2)

/-- `graphe_voxel`: rebuild the arrays from the node data.  The extents
are the per-axis maxima of the re-swapped coordinates plus one
(`coords.max(axis=0) + 1`), which raises on an empty node list —
modelled by `none`. -/
def graphe_voxel (nodes : List ((Nat × Nat × Nat) × Int)) : Option VoxelGrid :=
  match nodes with
  | [] => none
  | _ =>
    some
      { ny := ((nodes.map (fun n => n.1.2.1)).foldr max 0) + 1
        nx := ((nodes.map (fun n => n.1.1)).foldr max 0) + 1
        nz := ((nodes.map (fun n => n.1.2.2)).foldr max 0) + 1
        counts := fun c =>
          ((nodes.map (fun n => (n.1.2.1, n.1.1, n.1.2.2))).filter
            (fun c2 => decide (c2 = c))).length
        cls := fillClass (nodes.map (fun n => ((n.1.2.1, n.1.1, n.1.2.2), n.2)))
                 (fun _ => 0) }

/-- Numpy array equality of two voxel grids: same shape and elementwise
equal `counts` and `class_maj`. -/
def VoxelGrid.equiv (a b : VoxelGrid) : Prop :=
  a.ny = b.ny ∧ a.nx = b.nx ∧ a.nz = b.nz ∧
  ∀ y < a.ny, ∀ x < a.nx, ∀ z < a.nz,
    a.counts (y, x, z) = b.counts (y, x, z) ∧ a.cls (y, x, z) = b.cls (y, x, z)

/-- Executable check of the round trip `graphe_voxel (voxel_graphe G)`
against `G`. -/
def roundTripOk (g : VoxelGrid) : Bool :=
  match graphe_voxel (voxel_graphe_nodes g) with
  | none => false
  | some g2 =>
    decide (g2.ny = g.ny) && decide (g2.nx = g.nx) && decide (g2.nz = g.nz) &&
    ((List.range g.ny).all fun y => (List.range g.nx).all fun x =>
      (List.range g.nz).all fun z =>
        decide (g2.counts (y, x, z) = g.counts (y, x, z)) &&
        decide (g2.cls (y, x, z) = g.cls (y, x, z)))

/-- Executable check that no cell holds more than one point. -/
def countsLeOne (g : VoxelGrid) : Bool :=
  (List.range g.ny).all fun y => (List.range g.nx).all fun x =>
    (List.range g.nz).all fun z => decide (g.counts (y, x, z) ≤ 1)

/-- A 2×1×1 grid whose single point sits at index 0 of the y axis: the
trailing y slice is empty. -/
def cexGrid : VoxelGrid :=
  { ny := 2, nx := 1, nz := 1
    counts := fun c => if c = (0, 0, 0) then 1 else 0
    cls := fun c => if c = (0, 0, 0) then 2 else 0 }

/-! #### Helper lemmas for the round trip -/

lemma occupied_mem (g : VoxelGrid) (y x z : Nat) :
    (y, x, z) ∈ occupiedList g ↔
      y < g.ny ∧ x < g.nx ∧ z < g.nz ∧ 0 < g.counts (y, x, z) := by
  unfold occupiedList
  constructor
  · intro h
    rcases List.mem_flatten.mp h with ⟨ly, hly, hmem⟩
    rcases List.mem_map.mp hly with ⟨y2, hy2, rfl⟩
    rcases List.mem_flatten.mp hmem with ⟨lx, hlx, hmem2⟩
    rcases List.mem_map.mp hlx with ⟨x2, hx2, rfl⟩
    rcases List.mem_map.mp hmem2 with ⟨z2, hz2f, he⟩
    rcases List.mem_filter.mp hz2f with ⟨hz2, hc⟩
    injection he with e1 e2
    injection e2 with e2 e3
    subst e1; subst e2; subst e3
    exact ⟨List.mem_range.mp hy2, List.mem_range.mp hx2, List.mem_range.mp hz2,
      by simpa using hc⟩
  · rintro ⟨hy, hx, hz, hc⟩
    refine List.mem_flatten.mpr ⟨_, List.mem_map.mpr ⟨y, List.mem_range.mpr hy, rfl⟩, ?_⟩
    refine List.mem_flatten.mpr ⟨_, List.mem_map.mpr ⟨x, List.mem_range.mpr hx, rfl⟩, ?_⟩
    exact List.mem_map.mpr ⟨z,
      List.mem_filter.mpr ⟨List.mem_range.mpr hz, by simpa using hc⟩, rfl⟩

lemma nodup_flatten_tagged {α : Type} (l : List Nat) (hl : l.Nodup)
    (f : Nat → List α) (tag : α → Nat)
    (hf : ∀ i ∈ l, (f i).Nodup) (htag : ∀ i a, a ∈ f i → tag a = i) :
    ((l.map f).flatten).Nodup := by
  induction l with
  | nil => simp
  | cons i rest ih =>
    rw [List.nodup_cons] at hl
    simp only [List.map_cons, List.flatten_cons]
    refine List.Nodup.append (hf i (List.mem_cons_self _ _))
      (ih hl.2 (fun j hj => hf j (List.mem_cons_of_mem _ hj))) ?_
    intro a ha hb
    rcases List.mem_flatten.mp hb with ⟨lj, hlj, halj⟩
    rcases List.mem_map.mp hlj with ⟨j, hj, rfl⟩
    have h1 : tag a = i := htag i a ha
    have h2 : tag a = j := htag j a halj
    exact hl.1 (h1 ▸ h2 ▸ hj)

lemma occupied_nodup (g : VoxelGrid) : (occupiedList g).Nodup := by
  unfold occupiedList
  apply nodup_flatten_tagged (List.range g.ny) (List.nodup_range g.ny) _
    (fun c => c.1)
  · intro y _
    apply nodup_flatten_tagged (List.range g.nx) (List.nodup_range g.nx) _
      (fun c => c.2.1)
    · intro x _
      exact ((List.nodup_range g.nz).filter _).map
        (fun z1 z2 h => by injection h with e1 e2; injection e2 with e2 e3)
    · intro x a ha
      rcases List.mem_map.mp ha with ⟨z, _, rfl⟩
      rfl
  · intro y a ha
    rcases List.mem_flatten.mp ha with ⟨lx, hlx, halx⟩
    rcases List.mem_map.mp hlx with ⟨x, _, rfl⟩
    rcases List.mem_map.mp halx with ⟨z, _, rfl⟩
    rfl

lemma foldr_max_le (l : List Nat) (M : Nat) (h : ∀ a ∈ l, a ≤ M) :
    l.foldr max 0 ≤ M := by
  induction l with
  | nil => exact Nat.zero_le M
  | cons a rest ih =>
    simp only [List.foldr_cons]
    exact max_le (h a (List.mem_cons_self _ _))
      (ih (fun b hb => h b (List.mem_cons_of_mem _ hb)))

lemma foldr_max_eq (l : List Nat) (M : Nat) (h : ∀ a ∈ l, a ≤ M)
    (hm : M ∈ l) : l.foldr max 0 = M := by
  induction l with
  | nil => cases hm
  | cons a rest ih =>
    simp only [List.foldr_cons]
    rcases List.mem_cons.mp hm with rfl | hm
    · exact max_eq_left (foldr_max_le rest M
        (fun b hb => h b (List.mem_cons_of_mem _ hb)))
    · rw [ih (fun b hb => h b (List.mem_cons_of_mem _ hb)) hm]
      exact max_eq_right (h a (List.mem_cons_self _ _))

lemma fillClass_notMem (pairs : List ((Nat × Nat × Nat) × Int))
    (m : Nat × Nat × Nat → Int) (c : Nat × Nat × Nat)
    (hc : c ∉ pairs.map Prod.fst) : fillClass pairs m c = m c := by
  induction pairs generalizing m with
  | nil => rfl
  | cons p rest ih =>
    obtain ⟨c2, k2⟩ := p
    simp only [List.map_cons, List.mem_cons, not_or] at hc
    unfold fillClass
    rw [ih _ hc.2, if_neg hc.1]

lemma fillClass_mem (pairs : List ((Nat × Nat × Nat) × Int))
    (m : Nat × Nat × Nat → Int) (c : Nat × Nat × Nat) (k : Int)
    (hmem : (c, k) ∈ pairs) (hnd : (pairs.map Prod.fst).Nodup)
    (hm : m c = 0) : fillClass pairs m c = k := by
  induction pairs generalizing m with
  | nil => cases hmem
  | cons p rest ih =>
    obtain ⟨c2, k2⟩ := p
    simp only [List.map_cons, List.nodup_cons] at hnd
    rcases List.mem_cons.mp hmem with heq | hmem2
    · obtain ⟨rfl, rfl⟩ : c2 = c ∧ k2 = k := by
        injection heq.symm with e1 e2; exact ⟨e1, e2⟩
      unfold fillClass
      rw [fillClass_notMem _ _ _ hnd.1, if_pos rfl, if_pos (Or.inl hm)]
    · have hcne : c ≠ c2 := by
        rintro rfl
        exact hnd.1 (List.mem_map.mpr ⟨(c, k), hmem2, rfl⟩)
      unfold fillClass
      exact ih _ hmem2 hnd.2 (by simp only [if_neg hcne]; exact hm)

lemma filter_eq_length_not_mem {α : Type} [DecidableEq α] (l : List α) (c : α)
    (hc : c ∉ l) : (l.filter (fun b => decide (b = c))).length = 0 := by
  rw [List.length_eq_zero, List.filter_eq_nil_iff]
  intro b hb
  simp only [decide_eq_true_eq]
  rintro rfl
  exact hc hb

lemma filter_eq_length_nodup_mem {α : Type} [DecidableEq α] (l : List α)
    (hl : l.Nodup) (c : α) (hc : c ∈ l) :
    (l.filter (fun b => decide (b = c))).length = 1 := by
  induction l with
  | nil => cases hc
  | cons a rest ih =>
    rw [List.nodup_cons] at hl
    rcases List.mem_cons.mp hc with rfl | hc
    · rw [List.filter_cons_of_pos (by simp)]
      rw [List.length_cons, filter_eq_length_not_mem rest c hl.1]
    · have hne : a ≠ c := by rintro rfl; exact hl.1 hc
      rw [List.filter_cons_of_neg (by simpa using hne)]
      exact ih hl.2 hc

lemma nodes_swap (g : VoxelGrid) :
    (voxel_graphe_nodes g).map (fun n => (n.1.2.1, n.1.1, n.1.2.2)) =
      occupiedList g := by
  unfold voxel_graphe_nodes
  rw [List.map_map]
  exact List.map_id _

lemma nodes_y (g : VoxelGrid) :
    (voxel_graphe_nodes g).map (fun n => n.1.2.1) =
      (occupiedList g).map (fun c => c.1) := by
  unfold voxel_graphe_nodes
  rw [List.map_map]
  rfl

lemma nodes_x (g : VoxelGrid) :
    (voxel_graphe_nodes g).map (fun n => n.1.1) =
      (occupiedList g).map (fun c => c.2.1) := by
  unfold voxel_graphe_nodes
  rw [List.map_map]
  rfl

lemma nodes_z (g : VoxelGrid) :
    (voxel_graphe_nodes g).map (fun n => n.1.2.2) =
      (occupiedList g).map (fun c => c.2.2) := by
  unfold voxel_graphe_nodes
  rw [List.map_map]
  rfl

lemma nodes_pairs (g : VoxelGrid) :
    (voxel_graphe_nodes g).map (fun n => ((n.1.2.1, n.1.1, n.1.2.2), n.2)) =
      (occupiedList g).map (fun c => (c, g.cls c)) := by
  unfold voxel_graphe_nodes
  rw [List.map_map]
  rfl

lemma pairs_fst (g : VoxelGrid) :
    ((occupiedList g).map (fun c => (c, g.cls c))).map Prod.fst =
      occupiedList g := by
  rw [List.map_map]
  exact List.map_id _

/-- C2 (amended): the round trip `graphe_voxel (voxel_graphe G)`
reproduces `G` for every grid that is nonempty with tight extents (each
axis has an occupied cell at its last index), whose cells hold at most one
point each, and whose empty cells carry class 0. -/
theorem voxel_graphe_roundtrip (g : VoxelGrid)
    (h1 : ∀ y < g.ny, ∀ x < g.nx, ∀ z < g.nz, g.counts (y, x, z) ≤ 1)
    (h2 : ∀ y < g.ny, ∀ x < g.nx, ∀ z < g.nz,
        g.counts (y, x, z) = 0 → g.cls (y, x, z) = 0)
    (hty : ∃ c ∈ occupiedList g, c.1 = g.ny - 1)
    (htx : ∃ c ∈ occupiedList g, c.2.1 = g.nx - 1)
    (htz : ∃ c ∈ occupiedList g, c.2.2 = g.nz - 1) :
    ∃ g2, graphe_voxel (voxel_graphe_nodes g) = some g2 ∧
      VoxelGrid.equiv g2 g := by
  obtain ⟨c0, hc0mem, hc0y⟩ := hty
  obtain ⟨cx, hcxmem, hcx⟩ := htx
  obtain ⟨cz, hczmem, hcz⟩ := htz
  obtain ⟨y0, x0, z0⟩ := c0
  have hc0rng := (occupied_mem g y0 x0 z0).mp hc0mem
  have hny_pos : 0 < g.ny := by omega
  have hnx_pos : 0 < g.nx := by
    obtain ⟨yx, xx, zx⟩ := cx
    have := (occupied_mem g yx xx zx).mp hcxmem
    omega
  have hnz_pos : 0 < g.nz := by
    obtain ⟨yz, xz, zz⟩ := cz
    have := (occupied_mem g yz xz zz).mp hczmem
    omega
  -- the per-axis maxima of the occupied coordinates
  have hdy : ((occupiedList g).map (fun c => c.1)).foldr max 0 = g.ny - 1 := by
    apply foldr_max_eq
    · intro a ha
      rcases List.mem_map.mp ha with ⟨c, hc, rfl⟩
      obtain ⟨y, x, z⟩ := c
      have := (occupied_mem g y x z).mp hc
      show y ≤ g.ny - 1
      omega
    · exact List.mem_map.mpr ⟨(y0, x0, z0), hc0mem, hc0y⟩
  have hdx : ((occupiedList g).map (fun c => c.2.1)).foldr max 0 = g.nx - 1 := by
    apply foldr_max_eq
    · intro a ha
      rcases List.mem_map.mp ha with ⟨c, hc, rfl⟩
      obtain ⟨y, x, z⟩ := c
      have := (occupied_mem g y x z).mp hc
      show x ≤ g.nx - 1
      omega
    · exact List.mem_map.mpr ⟨cx, hcxmem, hcx⟩
  have hdz : ((occupiedList g).map (fun c => c.2.2)).foldr max 0 = g.nz - 1 := by
    apply foldr_max_eq
    · intro a ha
      rcases List.mem_map.mp ha with ⟨c, hc, rfl⟩
      obtain ⟨y, x, z⟩ := c
      have := (occupied_mem g y x z).mp hc
      show z ≤ g.nz - 1
      omega
    · exact List.mem_map.mpr ⟨cz, hczmem, hcz⟩
  have hpairs_nd : (((occupiedList g).map (fun c => (c, g.cls c))).map Prod.fst).Nodup := by
    rw [pairs_fst g]
    exact occupied_nodup g
  cases hN : voxel_graphe_nodes g with
  | nil =>
    exfalso
    have : occupiedList g = [] := by
      have := congrArg (List.map (fun n => (n.1.2.1, n.1.1, n.1.2.2))) hN
      rw [nodes_swap g] at this
      simpa using this
    rw [this] at hc0mem
    cases hc0mem
  | cons a t =>
    refine ⟨_, rfl, ?_⟩
    rw [← hN]
    have e1 : ((voxel_graphe_nodes g).map (fun n => n.1.2.1)).foldr max 0 + 1 = g.ny := by
      rw [nodes_y g, hdy]; omega
    have e2 : ((voxel_graphe_nodes g).map (fun n => n.1.1)).foldr max 0 + 1 = g.nx := by
      rw [nodes_x g, hdx]; omega
    have e3 : ((voxel_graphe_nodes g).map (fun n => n.1.2.2)).foldr max 0 + 1 = g.nz := by
      rw [nodes_z g, hdz]; omega
    refine ⟨e1, e2, e3, ?_⟩
    intro y hy x hx z hz
    have hy2 : y < ((voxel_graphe_nodes g).map (fun n => n.1.2.1)).foldr max 0 + 1 := hy
    have hx2 : x < ((voxel_graphe_nodes g).map (fun n => n.1.1)).foldr max 0 + 1 := hx
    have hz2 : z < ((voxel_graphe_nodes g).map (fun n => n.1.2.2)).foldr max 0 + 1 := hz
    rw [e1] at hy2
    rw [e2] at hx2
    rw [e3] at hz2
    constructor
    · -- counts round-trips
      show (((voxel_graphe_nodes g).map (fun n => (n.1.2.1, n.1.1, n.1.2.2))).filter
            (fun c2 => decide (c2 = (y, x, z)))).length = g.counts (y, x, z)
      rw [nodes_swap g]
      by_cases hocc : 0 < g.counts (y, x, z)
      · have hmem : (y, x, z) ∈ occupiedList g :=
          (occupied_mem g y x z).mpr ⟨hy2, hx2, hz2, hocc⟩
        rw [filter_eq_length_nodup_mem _ (occupied_nodup g) _ hmem]
        have := h1 y hy2 x hx2 z hz2
        omega
      · have h0 : g.counts (y, x, z) = 0 := by omega
        rw [h0]
        apply filter_eq_length_not_mem
        intro hmem
        exact hocc ((occupied_mem g y x z).mp hmem).2.2.2
    · -- class round-trips
      show fillClass
            ((voxel_graphe_nodes g).map (fun n => ((n.1.2.1, n.1.1, n.1.2.2), n.2)))
            (fun _ => 0) (y, x, z) = g.cls (y, x, z)
      rw [nodes_pairs g]
      by_cases hocc : 0 < g.counts (y, x, z)
      · have hmemL : (y, x, z) ∈ occupiedList g :=
          (occupied_mem g y x z).mpr ⟨hy2, hx2, hz2, hocc⟩
        exact fillClass_mem _ _ _ _
          (List.mem_map.mpr ⟨(y, x, z), hmemL, rfl⟩) hpairs_nd rfl
      · have h0 : g.counts (y, x, z) = 0 := by omega
        rw [fillClass_notMem]
        · exact (h2 y hy2 x hx2 z hz2 h0).symm
        · rw [pairs_fst g]
          intro hmem
          exact hocc ((occupied_mem g y x z).mp hmem).2.2.2

/-- C2 (counterexample): `cexGrid` has at most one point per cell, yet the
round trip shrinks the y extent from 2 to 1 (the reconstruction sizes the
arrays from the maximal occupied coordinate), so the rebuilt grid differs
from the original. -/
theorem voxel_graphe_roundtrip_cex :
    countsLeOne cexGrid = true ∧
    (graphe_voxel (voxel_graphe_nodes cexGrid)).map VoxelGrid.ny = some 1 ∧
    cexGrid.ny = 2 ∧
    roundTripOk cexGrid = false := by
  decide

/-- The 1×1×1 grid holding a single ground-class point. -/
def unitGrid : VoxelGrid :=
  { ny := 1, nx := 1, nz := 1
    counts := fun c => if c = (0, 0, 0) then 1 else 0
    cls := fun c => if c = (0, 0, 0) then 2 else 0 }

/-- Witness for C2 (amended): the tight unit grid satisfies all
hypotheses and round-trips to an equal grid. -/
theorem voxel_graphe_roundtrip_witness :
    (∀ y < unitGrid.ny, ∀ x < unitGrid.nx, ∀ z < unitGrid.nz,
        unitGrid.counts (y, x, z) ≤ 1) ∧
    (∀ y < unitGrid.ny, ∀ x < unitGrid.nx, ∀ z < unitGrid.nz,
        unitGrid.counts (y, x, z) = 0 → unitGrid.cls (y, x, z) = 0) ∧
    (∃ c ∈ occupiedList unitGrid, c.1 = unitGrid.ny - 1) ∧
    (∃ c ∈ occupiedList unitGrid, c.2.1 = unitGrid.nx - 1) ∧
    (∃ c ∈ occupiedList unitGrid, c.2.2 = unitGrid.nz - 1) ∧
    (∃ g2, graphe_voxel (voxel_graphe_nodes unitGrid) = some g2 ∧
      VoxelGrid.equiv g2 unitGrid) :=
  ⟨by decide, by decide,
   ⟨(0, 0, 0), by decide, rfl⟩, ⟨(0, 0, 0), by decide, rfl⟩,
   ⟨(0, 0, 0), by decide, rfl⟩,
   voxel_graphe_roundtrip unitGrid (by decide) (by decide)
     ⟨(0, 0, 0), by decide, rfl⟩ ⟨(0, 0, 0), by decide, rfl⟩
     ⟨(0, 0, 0), by decide, rfl⟩⟩

end LidarLego
